import Mathlib

/-!
Verification development for the pf-tui firewall-rule manager.

The definitions below are a shallow embedding of the Go source:
the rule model (`FirewallRule`, `PortForwardingRule`, `Config`),
the pf.conf compiler (`GeneratePfConf` and its clause builders),
the live-rule parser (`ParseLiveRules`), the JSON round trip used by
the persistence layer (`Marshal` / `Unmarshal`, modelling
encoding/json with decode-into-existing-value merge semantics), and
the rule store operations over an explicit file-system state.
-/

namespace PfTui

/-- Embeds the Go struct `FirewallRule` (src part_000): a single filter rule. -/
structure FirewallRule where
  Action      : String
  Direction   : String
  Quick       : Bool
  Interface   : String
  Protocol    : String
  Source      : String
  Destination : String
  Port        : String
  KeepState   : Bool
  Description : String
deriving DecidableEq, Repr, Inhabited

/-- Embeds the Go struct `PortForwardingRule`: a single rdr rule. -/
structure PortForwardingRule where
  Interface    : String
  Protocol     : String
  ExternalIP   : String
  ExternalPort : String
  InternalIP   : String
  InternalPort : String
  Description  : String
deriving DecidableEq, Repr, Inhabited

/-- Embeds the Go struct `Config`: both ordered rule lists. -/
structure Config where
  FirewallRules       : List FirewallRule
  PortForwardingRules : List PortForwardingRule
deriving DecidableEq, Repr, Inhabited

/-- The empty document produced by `NewFirewallManager` and by a load with no file. -/
def emptyConfig : Config := ⟨[], []⟩

/-! ## Go string primitives

The Go standard-library string functions used by the source are embedded as
structurally recursive functions over the character list of a `String`, so
that every definition evaluates inside the kernel. -/

/-- Split a character list at every character satisfying `p`, keeping empty
pieces, as Go `strings.Split` does for a one-character separator. -/
def splitByAux (p : Char → Bool) : List Char → List Char → List (List Char)
  | [], acc => [acc.reverse]
  | c :: cs, acc =>
    if p c then acc.reverse :: splitByAux p cs []
    else splitByAux p cs (c :: acc)

/-- String-level split on a character class. -/
def goSplit (p : Char → Bool) (s : String) : List String :=
  (splitByAux p s.data []).map fun l => String.mk l

/-- Embeds Go `strings.Split(s, ",")`. -/
def splitComma (s : String) : List String := goSplit (fun c => c = ',') s

/-- Embeds Go `strings.Split(s, "\n")`. -/
def splitNewline (s : String) : List String := goSplit (fun c => c = '\n') s

/-- Embeds Go `strings.TrimSpace`: drop leading and trailing whitespace. -/
def goTrimSpace (s : String) : String :=
  String.mk (((s.data.dropWhile Char.isWhitespace).reverse.dropWhile
    Char.isWhitespace).reverse)

/-- Embeds Go `strings.Contains(s, c)` for a one-character pattern. -/
def goContainsChar (s : String) (c : Char) : Bool := s.data.contains c

/-- Embeds Go `strings.ReplaceAll(s, "-", ":")`: a one-character pattern is
replaced character by character. -/
def replaceDashColon (s : String) : String :=
  String.mk (s.data.map fun c => if c = '-' then ':' else c)

/-- Embeds Go `strings.Join(parts, " ")`. -/
def joinSpace : List String → String
  | [] => ""
  | [x] => x
  | x :: xs => x ++ " " ++ joinSpace xs

/-- Concatenation of the pieces written to the output builder. -/
def concatStrings : List String → String
  | [] => ""
  | s :: rest => s ++ concatStrings rest

theorem string_append_empty (s : String) : s ++ "" = s := by
  cases s with
  | mk d => exact congrArg String.mk (List.append_nil d)

theorem concatStrings_pair (a b : String) : concatStrings [a, b] = a ++ b := by
  simp [concatStrings, string_append_empty, String.append_assoc]

/-! ## Compiler (`GeneratePfConf`) -/

/-- Port-string normalization inside `GeneratePfConf`: a port containing a
comma, hyphen or colon has every hyphen replaced by a colon and is wrapped
in curly braces; otherwise it is emitted as-is. -/
def pfPortString (port : String) : String :=
  if goContainsChar port ',' || goContainsChar port '-' || goContainsChar port ':' then
    "\x7b" ++ replaceDashColon port ++ "\x7d"
  else port

/-- Protocol token expansion in `GeneratePfConf`: protocol `any` with a
concrete port becomes the two tokens tcp and udp; otherwise the protocol
field is split on commas (`strings.Split`). -/
def protocolTokens (r : FirewallRule) : List String :=
  if r.Protocol = "any" ∧ r.Port ≠ "any" then ["tcp", "udp"]
  else splitComma r.Protocol

/-- Leading tokens of a filter line: action, direction, optional `quick`,
optional `on <interface>`. -/
def headParts (r : FirewallRule) : List String :=
  [r.Action, r.Direction]
    ++ (if r.Quick then ["quick"] else [])
    ++ (if r.Interface ≠ "any" then ["on", r.Interface] else [])

/-- The `proto <token>` clause, emitted unless the token is `any`. -/
def protoClause (proto : String) : List String :=
  if proto ≠ "any" then ["proto", proto] else []

/-- The `from ... to ...` clause of a filter line. -/
def fromToClause (r : FirewallRule) : List String :=
  if r.Source ≠ "any" ∨ r.Destination ≠ "any" then
    ["from", r.Source, "to", r.Destination]
  else if r.Source = "any" ∧ r.Destination = "any" ∧ r.Port ≠ "any" then
    ["from", "any", "to", "any"]
  else []

/-- The `port <ports>` clause: only for a concrete port with a tcp or udp token. -/
def portClause (r : FirewallRule) (proto : String) : List String :=
  if r.Port ≠ "any" ∧ (proto = "tcp" ∨ proto = "udp") then
    ["port", pfPortString r.Port]
  else []

/-- Body of a filter line: `all` when the token and every matcher are `any`,
otherwise the proto, from/to and port clauses in source order. -/
def bodyParts (r : FirewallRule) (proto : String) : List String :=
  if proto = "any" ∧ r.Source = "any" ∧ r.Destination = "any" ∧ r.Port = "any" then
    ["all"]
  else protoClause proto ++ fromToClause r ++ portClause r proto

/-- The `keep state` trailer (a single joined token, as in the source). -/
def keepClause (r : FirewallRule) : List String :=
  if r.KeepState then ["keep state"] else []

/-- Token sequence of one compiled filter line for one protocol token
(the token is whitespace-trimmed first, as in the loop body). -/
def filterRuleParts (r : FirewallRule) (proto0 : String) : List String :=
  let proto := goTrimSpace proto0
  headParts r ++ bodyParts r proto ++ keepClause r

/-- One compiled filter line: tokens joined by single spaces plus a newline. -/
def filterRuleLine (r : FirewallRule) (proto0 : String) : String :=
  joinSpace (filterRuleParts r proto0) ++ "\n"

/-- The optional description comment line preceding a filter rule. -/
def commentText (r : FirewallRule) : String :=
  if r.Description ≠ "" then "# " ++ r.Description ++ "\n" else ""

/-- Full compiled text of one filter rule: comment, then one line per
expanded protocol token. -/
def filterRuleText (r : FirewallRule) : String :=
  commentText r ++ concatStrings ((protocolTokens r).map (filterRuleLine r))

/-- The optional description comment line preceding an rdr rule. -/
def rdrCommentText (p : PortForwardingRule) : String :=
  if p.Description ≠ "" then "# " ++ p.Description ++ "\n" else ""

/-- Full compiled text of one port-forwarding (rdr) rule. -/
def rdrRuleText (p : PortForwardingRule) : String :=
  rdrCommentText p ++
    (if p.Interface = "any" then
      "rdr proto " ++ p.Protocol ++ " from any to " ++ p.ExternalIP ++
        " port " ++ p.ExternalPort ++ " -> " ++ p.InternalIP ++ " port " ++ p.InternalPort
    else
      "rdr on " ++ p.Interface ++ " proto " ++ p.Protocol ++ " from any to " ++
        (if p.ExternalIP = "any" then "(" ++ p.Interface ++ ")" else p.ExternalIP) ++
        " port " ++ p.ExternalPort ++ " -> " ++ p.InternalIP ++ " port " ++ p.InternalPort) ++
    "\n"

/-- Embeds `GeneratePfConf`: all rdr rules in order, then all filter rules. -/
def GeneratePfConf (c : Config) : String :=
  concatStrings (c.PortForwardingRules.map rdrRuleText) ++
    concatStrings (c.FirewallRules.map filterRuleText)

/-! ## Live-rule parser (`ParseLiveRules`, src/pf.go) -/

/-- Embeds Go `strings.Fields`: split on whitespace, dropping empty pieces. -/
def goFields (s : String) : List String :=
  (goSplit Char.isWhitespace s).filter (fun t => t ≠ "")

/-- The zero value of the Go `FirewallRule` struct. -/
def zeroFirewallRule : FirewallRule :=
  ⟨"", "", false, "", "", "", "", "", false, ""⟩

/-- Embeds the keyword scan loop of `ParseLiveRules` from token index `i`.
A value-consuming keyword (`on`, `proto`, `from`, `to`, `port`) reads the
following token; when there is none, the Go code indexes past the slice and
panics, modelled as `none`.  `keep` only skips the following token. -/
def scanTokens (parts : List String) (i : Nat) (r : FirewallRule) :
    Option FirewallRule :=
  if h : i < parts.length then
    let tok := parts.get ⟨i, h⟩
    if tok = "quick" then scanTokens parts (i + 1) { r with Quick := true }
    else if tok = "on" then
      match parts.get? (i + 1) with
      | none => none
      | some v => scanTokens parts (i + 2) { r with Interface := v }
    else if tok = "proto" then
      match parts.get? (i + 1) with
      | none => none
      | some v => scanTokens parts (i + 2) { r with Protocol := v }
    else if tok = "from" then
      match parts.get? (i + 1) with
      | none => none
      | some v => scanTokens parts (i + 2) { r with Source := v }
    else if tok = "to" then
      match parts.get? (i + 1) with
      | none => none
      | some v => scanTokens parts (i + 2) { r with Destination := v }
    else if tok = "port" then
      match parts.get? (i + 1) with
      | none => none
      | some v => scanTokens parts (i + 2) { r with Port := v }
    else if tok = "keep" then scanTokens parts (i + 2) { r with KeepState := true }
    else scanTokens parts (i + 1) r
  else some r
termination_by parts.length - i

/-- Parse of one non-noise line: tokens 0 and 1 become action and direction,
the rest are scanned for keywords. -/
def parseRuleLine (parts : List String) : Option FirewallRule :=
  scanTokens parts 2
    { zeroFirewallRule with
        Action := parts.getD 0 "", Direction := parts.getD 1 "" }

/-- The line loop of `ParseLiveRules`: blank lines and lines with fewer than
four fields are skipped; a panic on any line (`none`) aborts the whole parse. -/
def parseLines : List String → Option (List FirewallRule)
  | [] => some []
  | line :: rest =>
    if goTrimSpace line = "" then parseLines rest
    else
      let parts := goFields line
      if parts.length < 4 then parseLines rest
      else
        match parseRuleLine parts with
        | none => none
        | some r => (parseLines rest).map (fun rs => r :: rs)

/-- Embeds `ParseLiveRules`: `none` models a runtime panic
(index out of range), which in Go aborts the whole parse. -/
def ParseLiveRules (output : String) : Option (List FirewallRule) :=
  parseLines (splitNewline output)

/-! ## JSON model and the encoding/json round trip

File contents are modelled as either a parsed JSON value or a byte string
that is not syntactically valid JSON.  `Marshal` follows the struct tags of
the source; `Unmarshal` follows Go `json.Unmarshal` decoding *into an
existing value*: keys absent from the object leave the corresponding field
unchanged, a JSON null leaves the target unchanged, a wrong shape is a type
error, and unknown keys are ignored. -/

inductive Jval where
  | null
  | bool (b : Bool)
  | str  (s : String)
  | arr  (elems : List Jval)
  | obj  (fields : List (String × Jval))

/-- Bytes of a file: either valid JSON or syntactically invalid content. -/
inductive FileData where
  | json (v : Jval)
  | invalid (s : String)

/-- Errors surfaced by the store operations. -/
inductive Err where
  | jsonSyntax
  | jsonType
  | invalidIndex
  | readImportFailed
deriving DecidableEq, Repr

/-- Encoding of a `FirewallRule` per its json struct tags. -/
def encodeFirewallRule (r : FirewallRule) : Jval :=
  .obj [("action", .str r.Action), ("direction", .str r.Direction),
        ("quick", .bool r.Quick), ("interface", .str r.Interface),
        ("protocol", .str r.Protocol), ("source", .str r.Source),
        ("destination", .str r.Destination), ("port", .str r.Port),
        ("keep_state", .bool r.KeepState), ("description", .str r.Description)]

/-- Encoding of a `PortForwardingRule` per its json struct tags. -/
def encodePortForwardingRule (p : PortForwardingRule) : Jval :=
  .obj [("interface", .str p.Interface), ("protocol", .str p.Protocol),
        ("external_ip", .str p.ExternalIP), ("external_port", .str p.ExternalPort),
        ("internal_ip", .str p.InternalIP), ("internal_port", .str p.InternalPort),
        ("description", .str p.Description)]

/-- Encoding of a `Config`; `MarshalIndent` emits keys in struct order. -/
def encodeConfig (c : Config) : Jval :=
  .obj [("filter_rules", .arr (c.FirewallRules.map encodeFirewallRule)),
        ("rdr_rules", .arr (c.PortForwardingRules.map encodePortForwardingRule))]

/-- Decode a JSON value into an existing string field (null keeps the prior value). -/
def decStr (prior : String) : Jval → Except Err String
  | .str s => .ok s
  | .null => .ok prior
  | _ => .error .jsonType

/-- Decode a JSON value into an existing bool field (null keeps the prior value). -/
def decBool (prior : Bool) : Jval → Except Err Bool
  | .bool b => .ok b
  | .null => .ok prior
  | _ => .error .jsonType

/-- One key/value step of decoding an object into a `FirewallRule`. -/
def applyFRField (r : FirewallRule) : String × Jval → Except Err FirewallRule
  | ("action", v) => (decStr r.Action v).map fun s => { r with Action := s }
  | ("direction", v) => (decStr r.Direction v).map fun s => { r with Direction := s }
  | ("quick", v) => (decBool r.Quick v).map fun b => { r with Quick := b }
  | ("interface", v) => (decStr r.Interface v).map fun s => { r with Interface := s }
  | ("protocol", v) => (decStr r.Protocol v).map fun s => { r with Protocol := s }
  | ("source", v) => (decStr r.Source v).map fun s => { r with Source := s }
  | ("destination", v) => (decStr r.Destination v).map fun s => { r with Destination := s }
  | ("port", v) => (decStr r.Port v).map fun s => { r with Port := s }
  | ("keep_state", v) => (decBool r.KeepState v).map fun b => { r with KeepState := b }
  | ("description", v) => (decStr r.Description v).map fun s => { r with Description := s }
  | _ => .ok r

/-- Left fold of `applyFRField` over the object fields in order. -/
def decodeFRFields : FirewallRule → List (String × Jval) → Except Err FirewallRule
  | r, [] => .ok r
  | r, kv :: rest =>
    match applyFRField r kv with
    | .error e => .error e
    | .ok r2 => decodeFRFields r2 rest

/-- Decode a JSON value into an existing `FirewallRule`. -/
def decodeFirewallRule (prior : FirewallRule) : Jval → Except Err FirewallRule
  | .obj fields => decodeFRFields prior fields
  | .null => .ok prior
  | _ => .error .jsonType

/-- One key/value step of decoding an object into a `PortForwardingRule`. -/
def applyPFField (p : PortForwardingRule) : String × Jval → Except Err PortForwardingRule
  | ("interface", v) => (decStr p.Interface v).map fun s => { p with Interface := s }
  | ("protocol", v) => (decStr p.Protocol v).map fun s => { p with Protocol := s }
  | ("external_ip", v) => (decStr p.ExternalIP v).map fun s => { p with ExternalIP := s }
  | ("external_port", v) => (decStr p.ExternalPort v).map fun s => { p with ExternalPort := s }
  | ("internal_ip", v) => (decStr p.InternalIP v).map fun s => { p with InternalIP := s }
  | ("internal_port", v) => (decStr p.InternalPort v).map fun s => { p with InternalPort := s }
  | ("description", v) => (decStr p.Description v).map fun s => { p with Description := s }
  | _ => .ok p

/-- Left fold of `applyPFField` over the object fields in order. -/
def decodePFFields : PortForwardingRule → List (String × Jval) →
    Except Err PortForwardingRule
  | p, [] => .ok p
  | p, kv :: rest =>
    match applyPFField p kv with
    | .error e => .error e
    | .ok p2 => decodePFFields p2 rest

/-- Decode a JSON value into an existing `PortForwardingRule`. -/
def decodePortForwardingRule (prior : PortForwardingRule) :
    Jval → Except Err PortForwardingRule
  | .obj fields => decodePFFields prior fields
  | .null => .ok prior
  | _ => .error .jsonType

/-- The zero value of the Go `PortForwardingRule` struct. -/
def zeroPortForwardingRule : PortForwardingRule := ⟨"", "", "", "", "", "", ""⟩

/-- Element-wise decode of a JSON array into an existing slice: element `i`
is decoded into the prior element at `i` when one exists, else into the zero
value (Go reuses the backing array up to the prior length). -/
def decodeElems (dec : α → Jval → Except Err α) (zero : α) :
    List α → List Jval → Except Err (List α)
  | _, [] => .ok []
  | priors, v :: vs =>
    match dec (priors.headD zero) v with
    | .error e => .error e
    | .ok a =>
      match decodeElems dec zero priors.tail vs with
      | .error e => .error e
      | .ok rest => .ok (a :: rest)

/-- Decode a JSON value into an existing list field (null keeps the prior list). -/
def decodeListInto (dec : α → Jval → Except Err α) (zero : α) (prior : List α) :
    Jval → Except Err (List α)
  | .arr elems => decodeElems dec zero prior elems
  | .null => .ok prior
  | _ => .error .jsonType

/-- One key/value step of decoding the top-level object into a `Config`;
keys other than the two named rule arrays are ignored. -/
def applyConfigField (c : Config) : String × Jval → Except Err Config
  | ("filter_rules", v) =>
    (decodeListInto decodeFirewallRule zeroFirewallRule c.FirewallRules v).map
      fun l => { c with FirewallRules := l }
  | ("rdr_rules", v) =>
    (decodeListInto decodePortForwardingRule zeroPortForwardingRule
        c.PortForwardingRules v).map
      fun l => { c with PortForwardingRules := l }
  | _ => .ok c

/-- Left fold of `applyConfigField` over the top-level object fields. -/
def decodeConfigFields : Config → List (String × Jval) → Except Err Config
  | c, [] => .ok c
  | c, kv :: rest =>
    match applyConfigField c kv with
    | .error e => .error e
    | .ok c2 => decodeConfigFields c2 rest

/-- Embeds `json.Unmarshal(data, fm.Config)`: decode into the prior document. -/
def Unmarshal (d : FileData) (prior : Config) : Except Err Config :=
  match d with
  | .invalid _ => .error .jsonSyntax
  | .json v =>
    match v with
    | .obj fields => decodeConfigFields prior fields
    | .null => .ok prior
    | _ => .error .jsonType

/-- Embeds `json.MarshalIndent(fm.Config, ...)` at the JSON-value level. -/
def Marshal (c : Config) : FileData := .json (encodeConfig c)

/-! ## File system and rule store

The file system is a map from paths to optional file contents; `none` is an
absent file (`os.IsNotExist`).  Directory creation and write failures are
not modelled (no claim concerns them).  `getDefaultConfigPath` resolves to a
fixed home-relative path, modelled as a constant. -/

def FS : Type := String → Option FileData

/-- Point update of the file system (write, or delete with `none`). -/
def updateFS (fs : FS) (p : String) (v : Option FileData) : FS :=
  fun q => if q = p then v else fs q

/-- The resolved result of `getDefaultConfigPath`. -/
def defaultConfigPath : String := "/home/user/.config/pf-tui/rules.json"

/-- The backup path used by `ImportConfigFile`. -/
def backupPath : String := defaultConfigPath ++ ".bak"

/-- Outcome of a store operation: final file system, final in-memory
document, and the returned error if any. -/
structure StoreResult where
  fs  : FS
  mem : Config
  err : Option Err

/-- Embeds `LoadConfig`: an absent file yields the empty document and
success; otherwise the bytes are unmarshalled into the current in-memory
document, propagating the parse error. -/
def LoadConfig (fs : FS) (mem : Config) : Except Err Config :=
  match fs defaultConfigPath with
  | none => .ok emptyConfig
  | some d => Unmarshal d mem

/-- Embeds `SaveConfig`: marshal the document and write it to the default path. -/
def SaveConfig (fs : FS) (c : Config) : FS :=
  updateFS fs defaultConfigPath (some (Marshal c))

/-- The backup step of `ImportConfigFile`: when the default file exists it
is renamed to `backupPath` before anything else happens. -/
def importBackup (fs : FS) : FS :=
  match fs defaultConfigPath with
  | some d => updateFS (updateFS fs defaultConfigPath none) backupPath (some d)
  | none => fs

/-- Embeds `ImportConfigFile`: back up the default file if present, read the
source bytes (failure aborts, after the rename), write them verbatim to the
default path, and re-run `LoadConfig`. -/
def ImportConfigFile (fs : FS) (mem : Config) (sourcePath : String) : StoreResult :=
  let fs1 := importBackup fs
  match fs1 sourcePath with
  | none => ⟨fs1, mem, some .readImportFailed⟩
  | some data =>
    let fs2 := updateFS fs1 defaultConfigPath (some data)
    match LoadConfig fs2 mem with
    | .ok c => ⟨fs2, c, none⟩
    | .error e => ⟨fs2, mem, some e⟩

/-- Embeds `UpdateFirewallRule`: reload, bounds-check, replace in place, save. -/
def UpdateFirewallRule (fs : FS) (mem : Config) (index : Int)
    (rule : FirewallRule) : StoreResult :=
  match LoadConfig fs mem with
  | .error e => ⟨fs, mem, some e⟩
  | .ok c =>
    if index < 0 ∨ index ≥ c.FirewallRules.length then ⟨fs, c, some .invalidIndex⟩
    else
      let c2 := { c with FirewallRules := c.FirewallRules.set index.toNat rule }
      ⟨SaveConfig fs c2, c2, none⟩

/-- Embeds `DeleteFirewallRule`: reload, bounds-check, remove
(`append(l[:i], l[i+1:]...)`), save. -/
def DeleteFirewallRule (fs : FS) (mem : Config) (index : Int) : StoreResult :=
  match LoadConfig fs mem with
  | .error e => ⟨fs, mem, some e⟩
  | .ok c =>
    if index < 0 ∨ index ≥ c.FirewallRules.length then ⟨fs, c, some .invalidIndex⟩
    else
      let l := c.FirewallRules
      let c2 := { c with FirewallRules := l.take index.toNat ++ l.drop (index.toNat + 1) }
      ⟨SaveConfig fs c2, c2, none⟩

/-- Embeds `UpdatePortForwardingRule`. -/
def UpdatePortForwardingRule (fs : FS) (mem : Config) (index : Int)
    (rule : PortForwardingRule) : StoreResult :=
  match LoadConfig fs mem with
  | .error e => ⟨fs, mem, some e⟩
  | .ok c =>
    if index < 0 ∨ index ≥ c.PortForwardingRules.length then
      ⟨fs, c, some .invalidIndex⟩
    else
      let c2 := { c with
        PortForwardingRules := c.PortForwardingRules.set index.toNat rule }
      ⟨SaveConfig fs c2, c2, none⟩

/-- Embeds `DeletePortForwardingRule`. -/
def DeletePortForwardingRule (fs : FS) (mem : Config) (index : Int) : StoreResult :=
  match LoadConfig fs mem with
  | .error e => ⟨fs, mem, some e⟩
  | .ok c =>
    if index < 0 ∨ index ≥ c.PortForwardingRules.length then
      ⟨fs, c, some .invalidIndex⟩
    else
      let l := c.PortForwardingRules
      let c2 := { c with
        PortForwardingRules := l.take index.toNat ++ l.drop (index.toNat + 1) }
      ⟨SaveConfig fs c2, c2, none⟩

/-- The list reordering shared by both Move operations: bounds and
no-op checks, then remove-at-f followed by insert-at-t, as in the source
(`tmp := append(l[:f], l[f+1:]...)`, then `tmp[:t] ++ [rule] ++ tmp[t:]`). -/
def moveIdx [Inhabited α] (l : List α) (f t : Int) : List α :=
  if f < 0 ∨ f ≥ l.length ∨ t < 0 ∨ t ≥ l.length then l
  else if f = t then l
  else
    let x := l.getD f.toNat default
    let tmp := l.take f.toNat ++ l.drop (f.toNat + 1)
    tmp.take t.toNat ++ x :: tmp.drop t.toNat

/-- Embeds `MoveFirewallRule`: reorders the in-memory list only; no file
access of any kind occurs in the source method. -/
def MoveFirewallRule (fs : FS) (mem : Config) (f t : Int) : StoreResult :=
  ⟨fs, { mem with FirewallRules := moveIdx mem.FirewallRules f t }, none⟩

/-- Embeds `MovePortForwardingRule`. -/
def MovePortForwardingRule (fs : FS) (mem : Config) (f t : Int) : StoreResult :=
  ⟨fs, { mem with PortForwardingRules := moveIdx mem.PortForwardingRules f t }, none⟩

/-! ## Example rules from the worked examples of the specification -/

/-- The worked-example filter rule. -/
def exampleFilterRule : FirewallRule :=
  ⟨"pass", "in", false, "any", "any", "any", "any", "22,80", true, "web"⟩

/-- The worked-example port-forwarding rule. -/
def examplePortForwardingRule : PortForwardingRule :=
  ⟨"en0", "tcp", "any", "8080", "192.168.1.5", "80", "web fwd"⟩

/-! ## Claims about the compiler -/

/-- Claim C5: for a filter rule with a concrete port and a tcp or udp
protocol token, the compiler emits a port clause; the port string is wrapped
in curly braces with every hyphen replaced by a colon exactly when it
contains a comma, hyphen or colon, and is emitted unwrapped otherwise; no
port clause is emitted for any other protocol token. -/
theorem C5_port_clause :
    (∀ (r : FirewallRule) (p : String), r.Port ≠ "any" → (p = "tcp" ∨ p = "udp") →
      portClause r p = ["port", pfPortString r.Port]) ∧
    (∀ s : String,
      (goContainsChar s ',' || goContainsChar s '-' || goContainsChar s ':') = true →
      pfPortString s = "\x7b" ++ replaceDashColon s ++ "\x7d") ∧
    (∀ s : String,
      (goContainsChar s ',' || goContainsChar s '-' || goContainsChar s ':') = false →
      pfPortString s = s) ∧
    (∀ (r : FirewallRule) (p : String), ¬(p = "tcp" ∨ p = "udp") →
      portClause r p = []) ∧
    pfPortString "22,80" = "\x7b22,80\x7d" ∧
    pfPortString "1000-2000" = "\x7b1000:2000\x7d" ∧
    pfPortString "80" = "80" := by
  refine ⟨?_, ?_, ?_, ?_, by decide, by decide, by decide⟩
  · intro r p h1 h2
    simp [portClause, h1, h2]
  · intro s h
    simp [pfPortString, h]
  · intro s h
    simp [pfPortString, h]
  · intro r p h
    simp [portClause, h]

/-- Closed witness for C5 at the worked-example port values. -/
theorem C5_port_clause_witness :
    portClause exampleFilterRule "tcp" = ["port", pfPortString "22,80"] ∧
    pfPortString "8080" = "8080" :=
  ⟨C5_port_clause.1 exampleFilterRule "tcp" (by decide) (Or.inl rfl),
   C5_port_clause.2.2.1 "8080" (by decide)⟩

/-- Claim C6: for every port-forwarding rule on a concrete interface the
compiler emits the `rdr on` statement, rewriting an external IP of `any` to
the address-of-interface form; and the worked example compiles verbatim. -/
theorem C6_rdr_rule :
    (∀ p : PortForwardingRule, p.Interface ≠ "any" →
      rdrRuleText p =
        rdrCommentText p ++
          "rdr on " ++ p.Interface ++ " proto " ++ p.Protocol ++
          " from any to " ++
          (if p.ExternalIP = "any" then "(" ++ p.Interface ++ ")" else p.ExternalIP) ++
          " port " ++ p.ExternalPort ++ " -> " ++ p.InternalIP ++
          " port " ++ p.InternalPort ++ "\n") ∧
    GeneratePfConf ⟨[], [examplePortForwardingRule]⟩ =
      "# web fwd\nrdr on en0 proto tcp from any to (en0) port 8080 -> 192.168.1.5 port 80\n" := by
  constructor
  · intro p h
    simp [rdrRuleText, h, String.append_assoc]
  · rfl

/-- Closed witness for C6 at the worked-example rule. -/
theorem C6_rdr_rule_witness :
    rdrRuleText examplePortForwardingRule =
      rdrCommentText examplePortForwardingRule ++
        "rdr on " ++ "en0" ++ " proto " ++ "tcp" ++ " from any to " ++
        (if ("any" : String) = "any" then "(" ++ "en0" ++ ")" else "any") ++
        " port " ++ "8080" ++ " -> " ++ "192.168.1.5" ++ " port " ++ "80" ++ "\n" :=
  C6_rdr_rule.1 examplePortForwardingRule (by decide)

/-- Claim C1: a filter rule with protocol `any` and a concrete port compiles
to exactly two lines that differ only in the tcp/udp protocol token; every
other filter rule compiles to one line per comma-separated protocol token;
and the worked example compiles verbatim. -/
theorem C1_protocol_expansion :
    (∀ r : FirewallRule, r.Protocol = "any" → r.Port ≠ "any" →
      filterRuleText r =
        commentText r ++ filterRuleLine r "tcp" ++ filterRuleLine r "udp" ∧
      ∃ A B, filterRuleParts r "tcp" = A ++ "tcp" :: B ∧
             filterRuleParts r "udp" = A ++ "udp" :: B) ∧
    (∀ r : FirewallRule, ¬(r.Protocol = "any" ∧ r.Port ≠ "any") →
      protocolTokens r = splitComma r.Protocol ∧
      filterRuleText r =
        commentText r ++
          concatStrings ((splitComma r.Protocol).map (filterRuleLine r))) ∧
    GeneratePfConf ⟨[exampleFilterRule], []⟩ =
      "# web\npass in proto tcp from any to any port \x7b22,80\x7d keep state\n" ++
        "pass in proto udp from any to any port \x7b22,80\x7d keep state\n" := by
  refine ⟨?_, ?_, by rfl⟩
  · intro r h1 h2
    have htok : protocolTokens r = ["tcp", "udp"] := by
      simp [protocolTokens, h1, h2]
    constructor
    · simp [filterRuleText, htok, filterRuleLine, concatStrings_pair,
        String.append_assoc]
    · refine ⟨headParts r ++ ["proto"],
        fromToClause r ++ ["port", pfPortString r.Port] ++ keepClause r, ?_, ?_⟩
      · have htr : goTrimSpace "tcp" = "tcp" := by decide
        simp [filterRuleParts, htr, bodyParts, protoClause, portClause, h2]
      · have htr : goTrimSpace "udp" = "udp" := by decide
        simp [filterRuleParts, htr, bodyParts, protoClause, portClause, h2]
  · intro r h
    have htok : protocolTokens r = splitComma r.Protocol := by
      simp only [protocolTokens, if_neg h]
    exact ⟨htok, by simp [filterRuleText, htok]⟩

/-- Closed witness for C1 at the worked-example rule. -/
theorem C1_protocol_expansion_witness :
    filterRuleText exampleFilterRule =
      commentText exampleFilterRule ++ filterRuleLine exampleFilterRule "tcp" ++
        filterRuleLine exampleFilterRule "udp" ∧
    ∃ A B, filterRuleParts exampleFilterRule "tcp" = A ++ "tcp" :: B ∧
           filterRuleParts exampleFilterRule "udp" = A ++ "udp" :: B :=
  C1_protocol_expansion.1 exampleFilterRule rfl (by decide)

/-! ## Round-trip lemmas for the JSON layer -/

theorem decodeFirewallRule_encode (p r : FirewallRule) :
    decodeFirewallRule p (encodeFirewallRule r) = .ok r := by
  cases r
  rfl

theorem decodePortForwardingRule_encode (p r : PortForwardingRule) :
    decodePortForwardingRule p (encodePortForwardingRule r) = .ok r := by
  cases r
  rfl

theorem decodeElems_encode {α : Type} (dec : α → Jval → Except Err α)
    (zero : α) (enc : α → Jval) (h : ∀ p r, dec p (enc r) = .ok r) :
    ∀ (l : List α) (priors : List α),
      decodeElems dec zero priors (l.map enc) = .ok l := by
  intro l
  induction l with
  | nil => intro priors; rfl
  | cons a rest ih =>
    intro priors
    simp [decodeElems, h, ih]

theorem unmarshal_marshal (prior c : Config) :
    Unmarshal (Marshal c) prior = .ok c := by
  have h1 := decodeElems_encode decodeFirewallRule zeroFirewallRule
    encodeFirewallRule decodeFirewallRule_encode c.FirewallRules
    prior.FirewallRules
  have h2 := decodeElems_encode decodePortForwardingRule zeroPortForwardingRule
    encodePortForwardingRule decodePortForwardingRule_encode
    c.PortForwardingRules prior.PortForwardingRules
  cases c with
  | mk fw pf =>
    simp only [Config.FirewallRules, Config.PortForwardingRules] at h1 h2
    simp [Marshal, Unmarshal, encodeConfig, decodeConfigFields,
      applyConfigField, decodeListInto, h1, h2, Except.map]

/-! ## Claims about the persistence layer -/

/-- Claim C2: saving the in-memory document and loading it back yields a
document equal field-for-field to the one saved, order preserved (full
equality of the rule lists), whatever document was in memory at load time. -/
theorem C2_save_load_roundtrip (fs : FS) (c mem2 : Config) :
    LoadConfig (SaveConfig fs c) mem2 = .ok c := by
  have hfile : (SaveConfig fs c) defaultConfigPath = some (Marshal c) := by
    simp [SaveConfig, updateFS]
  simp [LoadConfig, hfile, unmarshal_marshal]

/-- Claim C9: a load with no default file yields the empty document and
success; a default file whose bytes are not valid JSON (or do not decode
into the document) makes the load return that parse error. -/
theorem C9_load_missing_or_malformed :
    (∀ (fs : FS) (mem : Config), fs defaultConfigPath = none →
      LoadConfig fs mem = .ok emptyConfig) ∧
    (∀ (fs : FS) (mem : Config) (s : String),
      fs defaultConfigPath = some (.invalid s) →
      LoadConfig fs mem = .error .jsonSyntax) ∧
    (∀ (fs : FS) (mem : Config) (d : FileData) (e : Err),
      fs defaultConfigPath = some d → Unmarshal d mem = .error e →
      LoadConfig fs mem = .error e) := by
  refine ⟨?_, ?_, ?_⟩
  · intro fs mem h
    simp [LoadConfig, h]
  · intro fs mem s h
    simp [LoadConfig, h, Unmarshal]
  · intro fs mem d e h1 h2
    simp [LoadConfig, h1, h2]

/-- Closed witness for C9: an empty file system loads as the empty
document, and a syntactically invalid default file is a parse error. -/
theorem C9_load_missing_or_malformed_witness :
    LoadConfig (fun _ => none) emptyConfig = .ok emptyConfig ∧
    LoadConfig
      (fun q => if q = defaultConfigPath then some (.invalid "oops") else none)
      emptyConfig = .error .jsonSyntax :=
  ⟨C9_load_missing_or_malformed.1 (fun _ => none) emptyConfig rfl,
   C9_load_missing_or_malformed.2.1
     (fun q => if q = defaultConfigPath then some (.invalid "oops") else none)
     emptyConfig "oops" (by simp)⟩

/-! ## List helper lemmas for Move and Delete -/

theorem insertIdx_take_drop {α : Type} (x : α) :
    ∀ (i : Nat) (l : List α), i ≤ l.length →
      l.insertIdx i x = l.take i ++ x :: l.drop i := by
  intro i
  induction i with
  | zero => intro l h; simp [List.insertIdx_zero]
  | succ n ih =>
    intro l h
    cases l with
    | nil => simp at h
    | cons a as =>
      simp only [List.insertIdx_succ_cons, List.take, List.drop, List.cons_append]
      rw [ih as (by simpa using h)]

theorem eraseAt_get? {α : Type} (l : List α) (i j : Nat) (hi : i < l.length) :
    (l.take i ++ l.drop (i + 1)).get? j =
      if j < i then l.get? j else l.get? (j + 1) := by
  have hlen : (l.take i).length = i := by
    simp [List.length_take]
    omega
  by_cases hj : j < i
  · rw [if_pos hj, List.get?_append (by omega), List.get?_take hj]
  · rw [if_neg hj, List.get?_append_right (by omega), List.get?_drop, hlen]
    congr 1
    omega

/-! ## Claim about Move -/

/-- Claim C7: moving with equal or out-of-range indices is a no-op on the
list; otherwise the element at `f` ends up at `t`, the others are shifted
accordingly (remove-at-`f` then insert-at-`t`), the length is unchanged, and
the operation touches only the in-memory list, leaving the file system
untouched with no error. -/
theorem C7_move_semantics :
    (∀ (α : Type) [Inhabited α] (l : List α) (f t : Int),
      (f = t ∨ f < 0 ∨ f ≥ (l.length : Int) ∨ t < 0 ∨ t ≥ (l.length : Int)) →
      moveIdx l f t = l) ∧
    (∀ (α : Type) [Inhabited α] (l : List α) (f t : Int),
      0 ≤ f → f < (l.length : Int) → 0 ≤ t → t < (l.length : Int) → f ≠ t →
      (moveIdx l f t).length = l.length ∧
      (moveIdx l f t).get? t.toNat = l.get? f.toNat ∧
      moveIdx l f t =
        (l.eraseIdx f.toNat).insertIdx t.toNat (l.getD f.toNat default)) ∧
    (∀ (fs : FS) (mem : Config) (f t : Int),
      (MoveFirewallRule fs mem f t).fs = fs ∧
      (MoveFirewallRule fs mem f t).err = none ∧
      (MoveFirewallRule fs mem f t).mem =
        { mem with FirewallRules := moveIdx mem.FirewallRules f t } ∧
      (MovePortForwardingRule fs mem f t).fs = fs ∧
      (MovePortForwardingRule fs mem f t).err = none ∧
      (MovePortForwardingRule fs mem f t).mem =
        { mem with PortForwardingRules := moveIdx mem.PortForwardingRules f t }) := by
  refine ⟨?_, ?_, ?_⟩
  · intro α inst l f t h
    by_cases hb : f < 0 ∨ f ≥ (l.length : Int) ∨ t < 0 ∨ t ≥ (l.length : Int)
    · simp only [moveIdx, if_pos hb]
    · have hft : f = t := by
        rcases h with h | h | h | h | h
        · exact h
        all_goals exact absurd (by omega : f < 0 ∨ f ≥ (l.length : Int) ∨
            t < 0 ∨ t ≥ (l.length : Int)) hb
      simp only [moveIdx, if_neg hb, if_pos hft]
  · intro α inst l f t h0f hf h0t ht hne
    have hb : ¬(f < 0 ∨ f ≥ (l.length : Int) ∨ t < 0 ∨ t ≥ (l.length : Int)) := by
      omega
    have hf' : f.toNat < l.length := by omega
    have ht' : t.toNat < l.length := by omega
    have hmove : moveIdx l f t =
        (l.take f.toNat ++ l.drop (f.toNat + 1)).take t.toNat ++
          l.getD f.toNat default ::
            (l.take f.toNat ++ l.drop (f.toNat + 1)).drop t.toNat := by
      simp only [moveIdx, if_neg hb, if_neg hne]
    have htmplen : (l.take f.toNat ++ l.drop (f.toNat + 1)).length = l.length - 1 := by
      simp [List.length_take, List.length_drop]
      omega
    have httmp : t.toNat ≤ (l.take f.toNat ++ l.drop (f.toNat + 1)).length := by
      omega
    refine ⟨?_, ?_, ?_⟩
    · rw [hmove]
      simp [List.length_take, List.length_drop, htmplen]
      omega
    · rw [hmove]
      have hpfx : ((l.take f.toNat ++ l.drop (f.toNat + 1)).take t.toNat).length
          = t.toNat := by
        simp [List.length_take]
        omega
      rw [List.get?_append_right (by omega), hpfx, Nat.sub_self]
      rw [List.get?_eq_get hf', List.getD_eq_get _ _ hf']
      rfl
    · rw [hmove, List.eraseIdx_eq_take_drop_succ,
        insertIdx_take_drop _ _ _ (by omega)]
  · intro fs mem f t
    exact ⟨rfl, rfl, rfl, rfl, rfl, rfl⟩

/-- Closed witness for C7: moving index 0 to 2 in a three-element list, and
a no-op out-of-range move. -/
theorem C7_move_semantics_witness :
    moveIdx [exampleFilterRule, zeroFirewallRule, exampleFilterRule]
        (3 : Int) (0 : Int) = [exampleFilterRule, zeroFirewallRule, exampleFilterRule] ∧
    (moveIdx [exampleFilterRule, zeroFirewallRule, exampleFilterRule]
        (0 : Int) (2 : Int)).length = 3 ∧
    (moveIdx [exampleFilterRule, zeroFirewallRule, exampleFilterRule]
        (0 : Int) (2 : Int)).get? (2 : Int).toNat =
      [exampleFilterRule, zeroFirewallRule, exampleFilterRule].get? (0 : Int).toNat := by
  have h1 := C7_move_semantics.1 FirewallRule
    [exampleFilterRule, zeroFirewallRule, exampleFilterRule] 3 0
    (by right; right; left; decide)
  have h2 := C7_move_semantics.2.1 FirewallRule
    [exampleFilterRule, zeroFirewallRule, exampleFilterRule] 0 2
    (by decide) (by decide) (by decide) (by decide) (by decide)
  exact ⟨h1, h2.1, h2.2.1⟩

/-! ## Claim about Update and Delete -/

/-- Claim C8: Update and Delete (filter and port-forward variants) first
reload the document from disk and bounds-check the index against the freshly
loaded list; out of range they return the invalid-index error and leave the
file system unchanged; in range, Update replaces the rule at the index and
saves, and Delete removes it — shortening the list by one and shifting every
later rule down one position — and saves. -/
theorem C8_update_delete :
    (∀ (fs : FS) (mem : Config) (i : Int) (r : FirewallRule) (c : Config),
      LoadConfig fs mem = .ok c →
      (i < 0 ∨ i ≥ (c.FirewallRules.length : Int)) →
      UpdateFirewallRule fs mem i r = ⟨fs, c, some .invalidIndex⟩) ∧
    (∀ (fs : FS) (mem : Config) (i : Int) (r : FirewallRule) (c : Config),
      LoadConfig fs mem = .ok c →
      0 ≤ i → i < (c.FirewallRules.length : Int) →
      UpdateFirewallRule fs mem i r =
        ⟨SaveConfig fs { c with FirewallRules := c.FirewallRules.set i.toNat r },
         { c with FirewallRules := c.FirewallRules.set i.toNat r }, none⟩) ∧
    (∀ (fs : FS) (mem : Config) (i : Int) (c : Config),
      LoadConfig fs mem = .ok c →
      (i < 0 ∨ i ≥ (c.FirewallRules.length : Int)) →
      DeleteFirewallRule fs mem i = ⟨fs, c, some .invalidIndex⟩) ∧
    (∀ (fs : FS) (mem : Config) (i : Int) (c : Config),
      LoadConfig fs mem = .ok c →
      0 ≤ i → i < (c.FirewallRules.length : Int) →
      DeleteFirewallRule fs mem i =
        ⟨SaveConfig fs { c with FirewallRules :=
            c.FirewallRules.take i.toNat ++ c.FirewallRules.drop (i.toNat + 1) },
         { c with FirewallRules :=
            c.FirewallRules.take i.toNat ++ c.FirewallRules.drop (i.toNat + 1) },
         none⟩ ∧
      (c.FirewallRules.take i.toNat ++ c.FirewallRules.drop (i.toNat + 1)).length =
        c.FirewallRules.length - 1 ∧
      ∀ j : Nat,
        (c.FirewallRules.take i.toNat ++ c.FirewallRules.drop (i.toNat + 1)).get? j =
          if j < i.toNat then c.FirewallRules.get? j
          else c.FirewallRules.get? (j + 1)) ∧
    (∀ (fs : FS) (mem : Config) (i : Int) (r : PortForwardingRule) (c : Config),
      LoadConfig fs mem = .ok c →
      (i < 0 ∨ i ≥ (c.PortForwardingRules.length : Int)) →
      UpdatePortForwardingRule fs mem i r = ⟨fs, c, some .invalidIndex⟩) ∧
    (∀ (fs : FS) (mem : Config) (i : Int) (r : PortForwardingRule) (c : Config),
      LoadConfig fs mem = .ok c →
      0 ≤ i → i < (c.PortForwardingRules.length : Int) →
      UpdatePortForwardingRule fs mem i r =
        ⟨SaveConfig fs
           { c with PortForwardingRules := c.PortForwardingRules.set i.toNat r },
         { c with PortForwardingRules := c.PortForwardingRules.set i.toNat r },
         none⟩) ∧
    (∀ (fs : FS) (mem : Config) (i : Int) (c : Config),
      LoadConfig fs mem = .ok c →
      (i < 0 ∨ i ≥ (c.PortForwardingRules.length : Int)) →
      DeletePortForwardingRule fs mem i = ⟨fs, c, some .invalidIndex⟩) ∧
    (∀ (fs : FS) (mem : Config) (i : Int) (c : Config),
      LoadConfig fs mem = .ok c →
      0 ≤ i → i < (c.PortForwardingRules.length : Int) →
      DeletePortForwardingRule fs mem i =
        ⟨SaveConfig fs { c with PortForwardingRules :=
            c.PortForwardingRules.take i.toNat ++
              c.PortForwardingRules.drop (i.toNat + 1) },
         { c with PortForwardingRules :=
            c.PortForwardingRules.take i.toNat ++
              c.PortForwardingRules.drop (i.toNat + 1) },
         none⟩ ∧
      (c.PortForwardingRules.take i.toNat ++
          c.PortForwardingRules.drop (i.toNat + 1)).length =
        c.PortForwardingRules.length - 1 ∧
      ∀ j : Nat,
        (c.PortForwardingRules.take i.toNat ++
            c.PortForwardingRules.drop (i.toNat + 1)).get? j =
          if j < i.toNat then c.PortForwardingRules.get? j
          else c.PortForwardingRules.get? (j + 1)) := by
  refine ⟨?_, ?_, ?_, ?_, ?_, ?_, ?_, ?_⟩
  · intro fs mem i r c hload hout
    simp only [UpdateFirewallRule, hload, if_pos hout]
  · intro fs mem i r c hload h0 hlt
    simp only [UpdateFirewallRule, hload, if_neg (by omega : ¬(i < 0 ∨
      i ≥ (c.FirewallRules.length : Int)))]
  · intro fs mem i c hload hout
    simp only [DeleteFirewallRule, hload, if_pos hout]
  · intro fs mem i c hload h0 hlt
    have hi : i.toNat < c.FirewallRules.length := by omega
    refine ⟨?_, ?_, ?_⟩
    · simp only [DeleteFirewallRule, hload, if_neg (by omega : ¬(i < 0 ∨
        i ≥ (c.FirewallRules.length : Int)))]
    · simp [List.length_take, List.length_drop]
      omega
    · intro j
      exact eraseAt_get? c.FirewallRules i.toNat j hi
  · intro fs mem i r c hload hout
    simp only [UpdatePortForwardingRule, hload, if_pos hout]
  · intro fs mem i r c hload h0 hlt
    simp only [UpdatePortForwardingRule, hload, if_neg (by omega : ¬(i < 0 ∨
      i ≥ (c.PortForwardingRules.length : Int)))]
  · intro fs mem i c hload hout
    simp only [DeletePortForwardingRule, hload, if_pos hout]
  · intro fs mem i c hload h0 hlt
    have hi : i.toNat < c.PortForwardingRules.length := by omega
    refine ⟨?_, ?_, ?_⟩
    · simp only [DeletePortForwardingRule, hload, if_neg (by omega : ¬(i < 0 ∨
        i ≥ (c.PortForwardingRules.length : Int)))]
    · simp [List.length_take, List.length_drop]
      omega
    · intro j
      exact eraseAt_get? c.PortForwardingRules i.toNat j hi

/-- The document used by the C8 witness. -/
def witnessConfig : Config := ⟨[exampleFilterRule, zeroFirewallRule], []⟩

/-- A file system whose default file holds the marshalled witness document. -/
def witnessFS : FS :=
  fun p => if p = defaultConfigPath then some (Marshal witnessConfig) else none

/-- The witness document after deleting the rule at index 0. -/
def witnessConfigDel : Config :=
  { witnessConfig with FirewallRules :=
      witnessConfig.FirewallRules.take 0 ++ witnessConfig.FirewallRules.drop 1 }

/-- Closed witness for C8: deleting index 0 from the two-rule witness
document succeeds and shortens the list; updating index 5 fails with the
invalid-index error and leaves the file system unchanged. -/
theorem C8_update_delete_witness :
    UpdateFirewallRule witnessFS emptyConfig 5 exampleFilterRule =
      ⟨witnessFS, witnessConfig, some .invalidIndex⟩ ∧
    DeleteFirewallRule witnessFS emptyConfig 0 =
      ⟨SaveConfig witnessFS witnessConfigDel, witnessConfigDel, none⟩ ∧
    (witnessConfig.FirewallRules.take 0 ++ witnessConfig.FirewallRules.drop 1).length =
      witnessConfig.FirewallRules.length - 1 := by
  have hload : LoadConfig witnessFS emptyConfig = .ok witnessConfig := by rfl
  have h1 := C8_update_delete.1 witnessFS emptyConfig 5 exampleFilterRule
    witnessConfig hload (by right; decide)
  have h2 := C8_update_delete.2.2.2.1 witnessFS emptyConfig 0 witnessConfig hload
    (by decide) (by decide)
  exact ⟨h1, h2.1, h2.2.1⟩

/-! ## Claims about Import -/

/-- The pre-import file system of the C3 counterexample: a default file
exists, the requested source file does not. -/
def c3Fs : FS :=
  fun p => if p = defaultConfigPath then some (.invalid "old config") else none

/-- Counterexample to claim C3 as stated: with a default file present and a
missing source file, the import step does not proceed (it fails with the
read error), yet the default file has already been renamed — the backup
exists and the default path is empty afterwards. -/
theorem C3_backup_only_if_proceed_cx :
    (ImportConfigFile c3Fs emptyConfig "/missing/source.json").err =
      some Err.readImportFailed ∧
    (ImportConfigFile c3Fs emptyConfig "/missing/source.json").fs
      defaultConfigPath = none ∧
    (ImportConfigFile c3Fs emptyConfig "/missing/source.json").fs
      backupPath = some (.invalid "old config") := by
  refine ⟨rfl, rfl, rfl⟩

/-- Claim C3 as amended: whenever the default file exists it is renamed to
the backup path, even if the source read then fails; and on a
successful import the backup file holds exactly the pre-import default bytes while the
default file holds exactly the source bytes, copied without validation. -/
theorem C3_import_backup_bytes :
    (∀ (fs : FS) (mem : Config) (src : String) (d : FileData),
      fs defaultConfigPath = some d →
      (importBackup fs) src = none →
      ImportConfigFile fs mem src =
        ⟨importBackup fs, mem, some .readImportFailed⟩ ∧
      (importBackup fs) backupPath = some d ∧
      (importBackup fs) defaultConfigPath = none) ∧
    (∀ (fs : FS) (mem : Config) (src : String) (d data : FileData) (c : Config),
      fs defaultConfigPath = some d →
      (importBackup fs) src = some data →
      Unmarshal data mem = .ok c →
      (ImportConfigFile fs mem src).err = none ∧
      (ImportConfigFile fs mem src).fs defaultConfigPath = some data ∧
      (ImportConfigFile fs mem src).fs backupPath = some d) := by
  have hne : defaultConfigPath ≠ backupPath := by decide
  constructor
  · intro fs mem src d hd hsrc
    refine ⟨?_, ?_, ?_⟩
    · simp only [ImportConfigFile, hsrc]
    · simp [importBackup, hd, updateFS]
    · simp [importBackup, hd, updateFS, hne]
  · intro fs mem src d data c hd hsrc hok
    have hload : LoadConfig (updateFS (importBackup fs) defaultConfigPath
        (some data)) mem = .ok c := by
      simp [LoadConfig, updateFS, hok]
    refine ⟨?_, ?_, ?_⟩
    · simp only [ImportConfigFile, hsrc, hload]
    · simp only [ImportConfigFile, hsrc, hload]
      simp [updateFS]
    · simp only [ImportConfigFile, hsrc, hload]
      simp [updateFS, Ne.symm hne, importBackup, hd, hne]

/-- The source file contents used by the C3 witness. -/
def c3SrcData : FileData := .json (encodeConfig witnessConfig)

/-- A file system with both a default file and a readable source file. -/
def c3FsBoth : FS :=
  fun p =>
    if p = defaultConfigPath then some (.invalid "old config")
    else if p = "/import/source.json" then some c3SrcData
    else none

/-- Closed witness for C3 (amended): a successful import leaves the source
bytes at the default path and the old default bytes at the backup path. -/
theorem C3_import_backup_bytes_witness :
    (ImportConfigFile c3FsBoth emptyConfig "/import/source.json").err = none ∧
    (ImportConfigFile c3FsBoth emptyConfig "/import/source.json").fs
      defaultConfigPath = some c3SrcData ∧
    (ImportConfigFile c3FsBoth emptyConfig "/import/source.json").fs
      backupPath = some (.invalid "old config") :=
  C3_import_backup_bytes.2 c3FsBoth emptyConfig "/import/source.json"
    (.invalid "old config") c3SrcData witnessConfig rfl rfl
    (unmarshal_marshal emptyConfig witnessConfig)

/-- Per-field preservation: a top-level key other than the two rule-array
keys, or the filter-rules key, never changes the port-forwarding list. -/
theorem applyConfigField_preserves_pf (c c2 : Config) (kv : String × Jval)
    (hk : kv.1 ≠ "rdr_rules") (h : applyConfigField c kv = .ok c2) :
    c2.PortForwardingRules = c.PortForwardingRules := by
  obtain ⟨k, v⟩ := kv
  unfold applyConfigField at h
  split at h
  · rename_i v2 heq
    rcases h2 : decodeListInto decodeFirewallRule zeroFirewallRule
      c.FirewallRules v2 with _ | l
    · rw [h2] at h
      simp [Except.map] at h
    · rw [h2] at h
      simp only [Except.map] at h
      cases h
      rfl
  · rename_i v2 heq
    injection heq with hkk hvv
    exact absurd hkk hk
  · cases h
    rfl

/-- Folding the top-level fields never changes the port-forwarding list when
no field is named `rdr_rules`. -/
theorem decodeConfigFields_preserves_pf :
    ∀ (fields : List (String × Jval)) (c0 c : Config),
      (∀ kv ∈ fields, kv.1 ≠ "rdr_rules") →
      decodeConfigFields c0 fields = .ok c →
      c.PortForwardingRules = c0.PortForwardingRules := by
  intro fields
  induction fields with
  | nil =>
    intro c0 c _ h
    cases h
    rfl
  | cons kv rest ih =>
    intro c0 c hk h
    simp only [decodeConfigFields] at h
    rcases h2 : applyConfigField c0 kv with _ | c1
    · rw [h2] at h
      cases h
    · rw [h2] at h
      have hkv : kv.1 ≠ "rdr_rules" := hk kv (by simp)
      have hrest : ∀ kv2 ∈ rest, kv2.1 ≠ "rdr_rules" := by
        intro kv2 hm
        exact hk kv2 (by simp [hm])
      rw [ih c1 c hrest h]
      exact applyConfigField_preserves_pf c0 c1 kv hkv h2

/-- The source file of the C10 counterexample: a JSON object with only the
`filter_rules` array (empty), no `rdr_rules` key. -/
def c10SrcData : FileData := .json (.obj [("filter_rules", .arr [])])

/-- The in-memory document before the C10 import: one port-forward rule. -/
def c10PriorMem : Config := ⟨[], [examplePortForwardingRule]⟩

/-- The file system of the C10 counterexample: only the source file exists. -/
def c10Fs : FS :=
  fun p => if p = "/import/src.json" then some c10SrcData else none

/-- Counterexample to claim C10 as stated: the import succeeds, the document
denoted by the source bytes alone is the empty document, yet the resulting
in-memory document is not that document — it retains the prior in-memory
port-forward list, because the source object omits the `rdr_rules` array and
decoding merges into the existing document. -/
theorem C10_import_wholesale_cx :
    (ImportConfigFile c10Fs c10PriorMem "/import/src.json").err = none ∧
    Unmarshal c10SrcData emptyConfig = .ok emptyConfig ∧
    (ImportConfigFile c10Fs c10PriorMem "/import/src.json").mem ≠ emptyConfig := by
  refine ⟨rfl, rfl, ?_⟩
  decide

/-- Claim C10 as amended: a successful import sets the in-memory document to
the result of decoding the source bytes into the prior in-memory document
(Go merge semantics); when the source object omits the `rdr_rules` array the
prior port-forward list is retained rather than replaced. -/
theorem C10_import_merge_semantics :
    (∀ (fs : FS) (mem : Config) (src : String) (data : FileData) (c : Config),
      (importBackup fs) src = some data →
      Unmarshal data mem = .ok c →
      ImportConfigFile fs mem src =
        ⟨updateFS (importBackup fs) defaultConfigPath (some data), c, none⟩) ∧
    (∀ (fields : List (String × Jval)) (mem c : Config),
      (∀ kv ∈ fields, kv.1 ≠ "rdr_rules") →
      Unmarshal (.json (.obj fields)) mem = .ok c →
      c.PortForwardingRules = mem.PortForwardingRules) := by
  constructor
  · intro fs mem src data c hsrc hok
    have hload : LoadConfig (updateFS (importBackup fs) defaultConfigPath
        (some data)) mem = .ok c := by
      simp [LoadConfig, updateFS, hok]
    simp only [ImportConfigFile, hsrc, hload]
  · intro fields mem c hk h
    exact decodeConfigFields_preserves_pf fields mem c hk h

/-- Closed witness for C10 (amended) at the counterexample input: the
resulting in-memory document keeps the prior port-forward list. -/
theorem C10_import_merge_semantics_witness :
    ImportConfigFile c10Fs c10PriorMem "/import/src.json" =
      ⟨updateFS (importBackup c10Fs) defaultConfigPath (some c10SrcData),
       ⟨[], [examplePortForwardingRule]⟩, none⟩ ∧
    Config.PortForwardingRules ⟨[], [examplePortForwardingRule]⟩ =
      c10PriorMem.PortForwardingRules :=
  ⟨C10_import_merge_semantics.1 c10Fs c10PriorMem "/import/src.json" c10SrcData
     ⟨[], [examplePortForwardingRule]⟩ rfl rfl,
   C10_import_merge_semantics.2 [("filter_rules", .arr [])] c10PriorMem
     ⟨[], [examplePortForwardingRule]⟩ (by simp) rfl⟩

/-! ## Claim about the live-rule parser -/

/-- The keyword tokens whose scan branch reads the following token. -/
def valueKeywords : List String := ["on", "proto", "from", "to", "port"]

theorem scanTokens_total (parts : List String)
    (hlast : ∀ z, parts.getLast? = some z → ¬ z ∈ valueKeywords) :
    ∀ i r, (scanTokens parts i r).isSome = true := by
  have hnone : ∀ (i : Nat) (h : i < parts.length), parts.get? (i + 1) = none →
      parts.get ⟨i, h⟩ ∈ valueKeywords → False := by
    intro i h hget hmem
    have hlen : parts.length ≤ i + 1 := List.get?_eq_none.mp hget
    have hgl : parts.getLast? = some (parts.get ⟨i, h⟩) := by
      rw [List.getLast?_eq_get?]
      have hi : parts.length - 1 = i := by omega
      rw [hi]
      exact List.get?_eq_get h
    exact hlast _ hgl hmem
  intro i r
  induction i, r using scanTokens.induct parts with
  | case1 i r h tok htok ih =>
    have htok' : parts.get ⟨i, h⟩ = "quick" := htok
    rw [scanTokens.eq_def]
    simp only [dif_pos h, if_pos htok']
    exact ih
  | case2 i r h tok hq hon hget =>
    have hon' : parts.get ⟨i, h⟩ = "on" := hon
    exact absurd (show parts.get ⟨i, h⟩ ∈ valueKeywords by rw [hon']; decide)
      (fun hm => hnone i h hget hm)
  | case3 i r h tok hq hon v hget ih =>
    have hq' : ¬parts.get ⟨i, h⟩ = "quick" := hq
    have hon' : parts.get ⟨i, h⟩ = "on" := hon
    rw [scanTokens.eq_def]
    simp only [dif_pos h, if_neg hq', if_pos hon', hget]
    exact ih
  | case4 i r h tok hq hon hproto hget =>
    have hp' : parts.get ⟨i, h⟩ = "proto" := hproto
    exact absurd (show parts.get ⟨i, h⟩ ∈ valueKeywords by rw [hp']; decide)
      (fun hm => hnone i h hget hm)
  | case5 i r h tok hq hon hproto v hget ih =>
    have hq' : ¬parts.get ⟨i, h⟩ = "quick" := hq
    have hon' : ¬parts.get ⟨i, h⟩ = "on" := hon
    have hp' : parts.get ⟨i, h⟩ = "proto" := hproto
    rw [scanTokens.eq_def]
    simp only [dif_pos h, if_neg hq', if_neg hon', if_pos hp', hget]
    exact ih
  | case6 i r h tok hq hon hproto hfrom hget =>
    have hf' : parts.get ⟨i, h⟩ = "from" := hfrom
    exact absurd (show parts.get ⟨i, h⟩ ∈ valueKeywords by rw [hf']; decide)
      (fun hm => hnone i h hget hm)
  | case7 i r h tok hq hon hproto hfrom v hget ih =>
    have hq' : ¬parts.get ⟨i, h⟩ = "quick" := hq
    have hon' : ¬parts.get ⟨i, h⟩ = "on" := hon
    have hp' : ¬parts.get ⟨i, h⟩ = "proto" := hproto
    have hf' : parts.get ⟨i, h⟩ = "from" := hfrom
    rw [scanTokens.eq_def]
    simp only [dif_pos h, if_neg hq', if_neg hon', if_neg hp', if_pos hf', hget]
    exact ih
  | case8 i r h tok hq hon hproto hfrom hto hget =>
    have ht' : parts.get ⟨i, h⟩ = "to" := hto
    exact absurd (show parts.get ⟨i, h⟩ ∈ valueKeywords by rw [ht']; decide)
      (fun hm => hnone i h hget hm)
  | case9 i r h tok hq hon hproto hfrom hto v hget ih =>
    have hq' : ¬parts.get ⟨i, h⟩ = "quick" := hq
    have hon' : ¬parts.get ⟨i, h⟩ = "on" := hon
    have hp' : ¬parts.get ⟨i, h⟩ = "proto" := hproto
    have hf' : ¬parts.get ⟨i, h⟩ = "from" := hfrom
    have ht' : parts.get ⟨i, h⟩ = "to" := hto
    rw [scanTokens.eq_def]
    simp only [dif_pos h, if_neg hq', if_neg hon', if_neg hp', if_neg hf',
      if_pos ht', hget]
    exact ih
  | case10 i r h tok hq hon hproto hfrom hto hport hget =>
    have hpo' : parts.get ⟨i, h⟩ = "port" := hport
    exact absurd (show parts.get ⟨i, h⟩ ∈ valueKeywords by rw [hpo']; decide)
      (fun hm => hnone i h hget hm)
  | case11 i r h tok hq hon hproto hfrom hto hport v hget ih =>
    have hq' : ¬parts.get ⟨i, h⟩ = "quick" := hq
    have hon' : ¬parts.get ⟨i, h⟩ = "on" := hon
    have hp' : ¬parts.get ⟨i, h⟩ = "proto" := hproto
    have hf' : ¬parts.get ⟨i, h⟩ = "from" := hfrom
    have ht' : ¬parts.get ⟨i, h⟩ = "to" := hto
    have hpo' : parts.get ⟨i, h⟩ = "port" := hport
    rw [scanTokens.eq_def]
    simp only [dif_pos h, if_neg hq', if_neg hon', if_neg hp', if_neg hf',
      if_neg ht', if_pos hpo', hget]
    exact ih
  | case12 i r h tok hq hon hproto hfrom hto hport hkeep ih =>
    have hq' : ¬parts.get ⟨i, h⟩ = "quick" := hq
    have hon' : ¬parts.get ⟨i, h⟩ = "on" := hon
    have hp' : ¬parts.get ⟨i, h⟩ = "proto" := hproto
    have hf' : ¬parts.get ⟨i, h⟩ = "from" := hfrom
    have ht' : ¬parts.get ⟨i, h⟩ = "to" := hto
    have hpo' : ¬parts.get ⟨i, h⟩ = "port" := hport
    have hk' : parts.get ⟨i, h⟩ = "keep" := hkeep
    rw [scanTokens.eq_def]
    simp only [dif_pos h, if_neg hq', if_neg hon', if_neg hp', if_neg hf',
      if_neg ht', if_neg hpo', if_pos hk']
    exact ih
  | case13 i r h tok hq hon hproto hfrom hto hport hkeep ih =>
    have hq' : ¬parts.get ⟨i, h⟩ = "quick" := hq
    have hon' : ¬parts.get ⟨i, h⟩ = "on" := hon
    have hp' : ¬parts.get ⟨i, h⟩ = "proto" := hproto
    have hf' : ¬parts.get ⟨i, h⟩ = "from" := hfrom
    have ht' : ¬parts.get ⟨i, h⟩ = "to" := hto
    have hpo' : ¬parts.get ⟨i, h⟩ = "port" := hport
    have hk' : ¬parts.get ⟨i, h⟩ = "keep" := hkeep
    rw [scanTokens.eq_def]
    simp only [dif_pos h, if_neg hq', if_neg hon', if_neg hp', if_neg hf',
      if_neg ht', if_neg hpo', if_neg hk']
    exact ih
  | case14 i r h =>
    rw [scanTokens.eq_def]
    simp [h]

/-- A line is harmless for the scan when it is short or its last field is
not a value-consuming keyword. -/
def lineSafe (line : String) : Prop :=
  (goFields line).length < 4 ∨
    ∀ z, (goFields line).getLast? = some z → ¬ z ∈ valueKeywords

theorem parseLines_total :
    ∀ lines : List String, (∀ line ∈ lines, lineSafe line) →
      (parseLines lines).isSome = true := by
  intro lines
  induction lines with
  | nil => intro _; rfl
  | cons line rest ih =>
    intro hsafe
    have hrest := fun l hm => hsafe l (List.mem_cons_of_mem _ hm)
    have hline := hsafe line (List.mem_cons_self _ _)
    simp only [parseLines]
    by_cases hb : goTrimSpace line = ""
    · simp only [if_pos hb]
      exact ih hrest
    · simp only [if_neg hb]
      by_cases hlen : (goFields line).length < 4
      · simp only [if_pos hlen]
        exact ih hrest
      · simp only [if_neg hlen]
        rcases hline with hl | hl
        · exact absurd hl hlen
        · have hscan := scanTokens_total (goFields line) hl 2
            { zeroFirewallRule with
                Action := (goFields line).getD 0 "",
                Direction := (goFields line).getD 1 "" }
          rcases hs : parseRuleLine (goFields line) with _ | r
          · rw [parseRuleLine] at hs
            rw [hs] at hscan
            simp at hscan
          · simp only [hs]
            have hrec := ih hrest
            rcases ho : parseLines rest with _ | rs
            · rw [ho] at hrec
              simp at hrec
            · simp [ho]

/-- Counterexample to claim C4 as stated: the four-token line
`a b c port` ends in the value-consuming keyword `port`; the scan reads past
the token slice (a Go index-out-of-range panic) and the parse of the whole
input fails. -/
theorem C4_parse_never_fails_cx : ParseLiveRules "a b c port" = none := by
  have h3 : scanTokens ["a", "b", "c", "port"] 3
      ⟨"a", "b", false, "", "", "", "", "", false, ""⟩ = none := by
    rw [scanTokens.eq_def]
    decide
  have h2 : parseRuleLine (goFields "a b c port") = none := by
    show scanTokens ["a", "b", "c", "port"] 2
      ⟨"a", "b", false, "", "", "", "", "", false, ""⟩ = none
    rw [scanTokens.eq_def]
    exact h3
  have hstep : ParseLiveRules "a b c port" =
      match parseRuleLine (goFields "a b c port") with
      | none => none
      | some r => (parseLines []).map (fun rs => r :: rs) := rfl
  rw [hstep, h2]

/-- Claim C4 as amended: blank lines and lines with fewer than four fields
are skipped as noise, and the parse succeeds on every input none of whose
lines both has at least four fields and ends in one of the value-consuming
keywords `on`, `proto`, `from`, `to`, `port` (a trailing `keep` is harmless,
since its branch reads no value); a line that does end in a value-consuming
keyword reached by the scan aborts the whole parse. -/
theorem C4_parse_skip :
    (∀ (line : String) (rest : List String), goTrimSpace line = "" →
      parseLines (line :: rest) = parseLines rest) ∧
    (∀ (line : String) (rest : List String), goTrimSpace line ≠ "" →
      (goFields line).length < 4 →
      parseLines (line :: rest) = parseLines rest) ∧
    (∀ s : String, (∀ line ∈ splitNewline s, lineSafe line) →
      (ParseLiveRules s).isSome = true) := by
  refine ⟨?_, ?_, ?_⟩
  · intro line rest h
    simp only [parseLines, if_pos h]
  · intro line rest h hlen
    simp only [parseLines, if_neg h, if_pos hlen]
  · intro s hsafe
    exact parseLines_total (splitNewline s) hsafe

/-- Closed witness for C4 (amended): a realistic pfctl output line parses
without failure. -/
theorem C4_parse_skip_witness :
    (ParseLiveRules
      "pass in proto tcp from any to any port 22 keep state").isSome = true :=
  C4_parse_skip.2.2 "pass in proto tcp from any to any port 22 keep state"
    (by
      intro line hm
      have hs : splitNewline "pass in proto tcp from any to any port 22 keep state"
          = ["pass in proto tcp from any to any port 22 keep state"] := rfl
      rw [hs] at hm
      rcases List.mem_singleton.mp hm with rfl
      right
      intro z hz
      have hlast : (goFields
          "pass in proto tcp from any to any port 22 keep state").getLast?
          = some "state" := rfl
      rw [hlast] at hz
      cases hz
      decide)

end PfTui
